import Mathlib

/-!
# Formal model of `TOTP.py`

A shallow embedding of the single-file TOTP/HOTP generator (`src/TOTP.py`)
together with theorems checking the natural-language specification against it.

Byte strings are modelled as `List Nat` (each entry a byte value `< 256`),
Python integers as `Nat`/`Int`, and the machine-word arithmetic inside the
hash primitives as `Nat` with explicit reduction `% 2 ^ w`.

The embedding covers, faithfully to the source:
* `int_to_bytestring` (counter → 8-byte big-endian string), including a
  fuelled variant over `Int` that captures the non-termination of the
  Python `while` loop on negative inputs;
* `key_check` (separator stripping, `=`-padding restoration, and CPython's
  `base64.b32decode` with `casefold=True`);
* the HMAC construction over SHA-1 / SHA-256 / SHA-512 (the three
  `hashlib` algorithms the command line offers);
* `get_key` itself: counter derivation from the clock reading, the keyed
  hash, the dynamic-truncation bit manipulation (with the hard-coded
  digest length `20` exactly as in the source), decimal formatting, and
  the `try/except` that turns every raised error into a failure dict.
-/

namespace TOTP

deriving instance DecidableEq for Except

/-- Big-endian value of a byte string, as a natural number.  This models
Python's `int(h.hexdigest(), 16)` (line 56) applied to a digest: the hex
digest spells the digest bytes most-significant first. -/
def beVal (bs : List Nat) : Nat := bs.foldl (fun a b => a * 256 + b) 0

/-- Fixed-width big-endian byte string of a value (width `w` bytes). -/
def beBytes (w v : Nat) : List Nat :=
  (List.range w).map (fun i => (v >>> (8 * (w - 1 - i))) &&& 255)

/-- Addition of machine words of `bits` bits. -/
def addW (bits x y : Nat) : Nat := (x + y) % 2 ^ bits

/-- Left rotation of an `bits`-bit word by `n`. -/
def rotl (bits n x : Nat) : Nat := ((x <<< n) ||| (x >>> (bits - n))) % 2 ^ bits

/-- Right rotation of an `bits`-bit word by `n`. -/
def rotr (bits n x : Nat) : Nat := ((x >>> n) ||| (x <<< (bits - n))) % 2 ^ bits

/-- Bitwise complement of a `bits`-bit word. -/
def notW (bits x : Nat) : Nat := x ^^^ (2 ^ bits - 1)

/-- Split a byte string into chunks of `bs` bytes (the last one possibly
short).  Fuelled by the length of the list so that the kernel can unfold
it; `chunksAux` consumes at least one byte of the list per step. -/
def chunksAux (bs : Nat) : Nat → List Nat → List (List Nat)
  | _, [] => []
  | 0, _ => []
  | fuel + 1, l => l.take bs :: chunksAux bs fuel (l.drop bs)

/-- Split a byte string into chunks of `bs` bytes. -/
def chunks (bs : Nat) (l : List Nat) : List (List Nat) :=
  chunksAux bs l.length l

/-- The 16 big-endian words (of `wb` bytes each) of one message block. -/
def blockWords (wb : Nat) (block : List Nat) : List Nat :=
  (List.range 16).map (fun i => beVal ((block.drop (wb * i)).take wb))

/-- Merkle–Damgård padding: append `0x80`, zero bytes up to congruence, and
the message bit length on `lenBytes` bytes, reaching a multiple of
`blockSize` bytes. -/
def mdPad (blockSize lenBytes : Nat) (msg : List Nat) : List Nat :=
  let L := msg.length
  let padLen := (blockSize - (L + 1 + lenBytes) % blockSize) % blockSize
  msg ++ [0x80] ++ List.replicate padLen 0 ++ beBytes lenBytes (8 * L)

/-! ## SHA-1 (FIPS 180-4), as provided by `hashlib.sha1` -/

/-- SHA-1 round constant for round `i`. -/
def sha1K (i : Nat) : Nat :=
  if i < 20 then 0x5A827999 else if i < 40 then 0x6ED9EBA1
  else if i < 60 then 0x8F1BBCDC else 0xCA62C1D6

/-- SHA-1 round function for round `i`. -/
def sha1F (i b c d : Nat) : Nat :=
  if i < 20 then (b &&& c) ||| (notW 32 b &&& d)
  else if i < 40 then b ^^^ c ^^^ d
  else if i < 60 then (b &&& c) ||| (b &&& d) ||| (c &&& d)
  else b ^^^ c ^^^ d

/-- Extend the 16 block words to the 80-word SHA-1 message schedule. -/
def sha1Schedule (ws : List Nat) : List Nat :=
  (List.range 64).foldl
    (fun ws _ =>
      let n := ws.length
      ws ++ [rotl 32 1 (ws.getD (n - 3) 0 ^^^ ws.getD (n - 8) 0 ^^^
        ws.getD (n - 14) 0 ^^^ ws.getD (n - 16) 0)])
    ws

/-- The 80 SHA-1 rounds on the five-word working state. -/
def sha1Rounds (w : List Nat) (st : Nat × Nat × Nat × Nat × Nat) :
    Nat × Nat × Nat × Nat × Nat :=
  (List.range 80).foldl
    (fun st i =>
      match st with
      | (a, b, c, d, e) =>
        ((rotl 32 5 a + sha1F i b c d + e + sha1K i + w.getD i 0) % 2 ^ 32,
          a, rotl 32 30 b, c, d))
    st

/-- One SHA-1 compression: run the rounds and add the result to the chain. -/
def sha1Compress (h : Nat × Nat × Nat × Nat × Nat) (block : List Nat) :
    Nat × Nat × Nat × Nat × Nat :=
  match h, sha1Rounds (sha1Schedule (blockWords 4 block)) h with
  | (h0, h1, h2, h3, h4), (a, b, c, d, e) =>
    (addW 32 h0 a, addW 32 h1 b, addW 32 h2 c, addW 32 h3 d, addW 32 h4 e)

/-- SHA-1 of a byte string, as a 20-byte digest. -/
def sha1 (msg : List Nat) : List Nat :=
  match (chunks 64 (mdPad 64 8 msg)).foldl sha1Compress
    (0x67452301, 0xEFCDAB89, 0x98BADCFE, 0x10325476, 0xC3D2E1F0) with
  | (h0, h1, h2, h3, h4) =>
    beBytes 4 h0 ++ beBytes 4 h1 ++ beBytes 4 h2 ++ beBytes 4 h3 ++ beBytes 4 h4

/-! ## SHA-256 and SHA-512 (FIPS 180-4), shared round structure -/

/-- The small sigma functions of SHA-2: two rotations and a shift. -/
def sha2s (bits r1 r2 sh x : Nat) : Nat :=
  rotr bits r1 x ^^^ rotr bits r2 x ^^^ (x >>> sh)

/-- The big sigma functions of SHA-2: three rotations. -/
def sha2S (bits r1 r2 r3 x : Nat) : Nat :=
  rotr bits r1 x ^^^ rotr bits r2 x ^^^ rotr bits r3 x

/-- Extend the 16 block words to the `rounds`-word SHA-2 message schedule,
with the algorithm-specific small sigma parameters. -/
def sha2Schedule (bits r1 r2 sh1 r3 r4 sh2 rounds : Nat) (ws : List Nat) :
    List Nat :=
  (List.range (rounds - 16)).foldl
    (fun ws _ =>
      let n := ws.length
      ws ++ [(ws.getD (n - 16) 0 + sha2s bits r1 r2 sh1 (ws.getD (n - 15) 0) +
        ws.getD (n - 7) 0 + sha2s bits r3 r4 sh2 (ws.getD (n - 2) 0)) % 2 ^ bits])
    ws

/-- Eight-word SHA-2 working state. -/
abbrev Sha2State := Nat × Nat × Nat × Nat × Nat × Nat × Nat × Nat

/-- The SHA-2 rounds on the eight-word working state, with the
algorithm-specific big sigma parameters and round-constant table `K`. -/
def sha2Rounds (bits e1 e2 e3 a1 a2 a3 : Nat) (K w : List Nat)
    (st : Sha2State) : Sha2State :=
  (List.range K.length).foldl
    (fun st i =>
      match st with
      | (a, b, c, d, e, f, g, h) =>
        let t1 := (h + sha2S bits e1 e2 e3 e + ((e &&& f) ^^^ (notW bits e &&& g)) +
          K.getD i 0 + w.getD i 0) % 2 ^ bits
        let t2 := (sha2S bits a1 a2 a3 a +
          ((a &&& b) ^^^ (a &&& c) ^^^ (b &&& c))) % 2 ^ bits
        ((t1 + t2) % 2 ^ bits, a, b, c, (d + t1) % 2 ^ bits, e, f, g))
    st

/-- One SHA-2 compression. -/
def sha2Compress (bits wb r1 r2 sh1 r3 r4 sh2 e1 e2 e3 a1 a2 a3 : Nat)
    (K : List Nat) (h : Sha2State) (block : List Nat) : Sha2State :=
  match h, sha2Rounds bits e1 e2 e3 a1 a2 a3 K
    (sha2Schedule bits r1 r2 sh1 r3 r4 sh2 K.length (blockWords wb block)) h with
  | (h0, h1, h2, h3, h4, h5, h6, h7), (a, b, c, d, e, f, g, hh) =>
    (addW bits h0 a, addW bits h1 b, addW bits h2 c, addW bits h3 d,
      addW bits h4 e, addW bits h5 f, addW bits h6 g, addW bits h7 hh)

/-- SHA-256 round-constant table. -/
def sha256K : List Nat :=
  [1116352408, 1899447441, 3049323471, 3921009573, 961987163, 1508970993,
   2453635748, 2870763221, 3624381080, 310598401, 607225278, 1426881987,
   1925078388, 2162078206, 2614888103, 3248222580, 3835390401, 4022224774,
   264347078, 604807628, 770255983, 1249150122, 1555081692, 1996064986,
   2554220882, 2821834349, 2952996808, 3210313671, 3336571891, 3584528711,
   113926993, 338241895, 666307205, 773529912, 1294757372, 1396182291,
   1695183700, 1986661051, 2177026350, 2456956037, 2730485921, 2820302411,
   3259730800, 3345764771, 3516065817, 3600352804, 4094571909, 275423344,
   430227734, 506948616, 659060556, 883997877, 958139571, 1322822218,
   1537002063, 1747873779, 1955562222, 2024104815, 2227730452, 2361852424,
   2428436474, 2756734187, 3204031479, 3329325298]

/-- SHA-512 round-constant table. -/
def sha512K : List Nat :=
  [4794697086780616226, 8158064640168781261, 13096744586834688815, 16840607885511220156,
   4131703408338449720, 6480981068601479193, 10538285296894168987, 12329834152419229976,
   15566598209576043074, 1334009975649890238, 2608012711638119052, 6128411473006802146,
   8268148722764581231, 9286055187155687089, 11230858885718282805, 13951009754708518548,
   16472876342353939154, 17275323862435702243, 1135362057144423861, 2597628984639134821,
   3308224258029322869, 5365058923640841347, 6679025012923562964, 8573033837759648693,
   10970295158949994411, 12119686244451234320, 12683024718118986047, 13788192230050041572,
   14330467153632333762, 15395433587784984357, 489312712824947311, 1452737877330783856,
   2861767655752347644, 3322285676063803686, 5560940570517711597, 5996557281743188959,
   7280758554555802590, 8532644243296465576, 9350256976987008742, 10552545826968843579,
   11727347734174303076, 12113106623233404929, 14000437183269869457, 14369950271660146224,
   15101387698204529176, 15463397548674623760, 17586052441742319658, 1182934255886127544,
   1847814050463011016, 2177327727835720531, 2830643537854262169, 3796741975233480872,
   4115178125766777443, 5681478168544905931, 6601373596472566643, 7507060721942968483,
   8399075790359081724, 8693463985226723168, 9568029438360202098, 10144078919501101548,
   10430055236837252648, 11840083180663258601, 13761210420658862357, 14299343276471374635,
   14566680578165727644, 15097957966210449927, 16922976911328602910, 17689382322260857208,
   500013540394364858, 748580250866718886, 1242879168328830382, 1977374033974150939,
   2944078676154940804, 3659926193048069267, 4368137639120453308, 4836135668995329356,
   5532061633213252278, 6448918945643986474, 6902733635092675308, 7801388544844847127]

/-- SHA-256 of a byte string, as a 32-byte digest. -/
def sha256 (msg : List Nat) : List Nat :=
  match (chunks 64 (mdPad 64 8 msg)).foldl
    (sha2Compress 32 4 7 18 3 17 19 10 6 11 25 2 13 22 sha256K)
    (1779033703, 3144134277, 1013904242, 2773480762,
      1359893119, 2600822924, 528734635, 1541459225) with
  | (h0, h1, h2, h3, h4, h5, h6, h7) =>
    beBytes 4 h0 ++ beBytes 4 h1 ++ beBytes 4 h2 ++ beBytes 4 h3 ++
    beBytes 4 h4 ++ beBytes 4 h5 ++ beBytes 4 h6 ++ beBytes 4 h7

/-- SHA-512 of a byte string, as a 64-byte digest. -/
def sha512 (msg : List Nat) : List Nat :=
  match (chunks 128 (mdPad 128 16 msg)).foldl
    (sha2Compress 64 8 1 8 7 19 61 6 14 18 41 28 34 39 sha512K)
    (7640891576956012808, 13503953896175478587, 4354685564936845355, 11912009170470909681,
      5840696475078001361, 11170449401992604703, 2270897969802886507, 6620516959819538809) with
  | (h0, h1, h2, h3, h4, h5, h6, h7) =>
    beBytes 8 h0 ++ beBytes 8 h1 ++ beBytes 8 h2 ++ beBytes 8 h3 ++
    beBytes 8 h4 ++ beBytes 8 h5 ++ beBytes 8 h6 ++ beBytes 8 h7

/-! ## The algorithm selector and HMAC (`hmac.new(key, msg, digestmod)`) -/

/-- The hash-algorithm choices the command line of `TOTP.py` offers
(`--alg` with `choices=['SHA1', 'SHA256', 'SHA512']`, mapped to
`hashlib.sha1` / `hashlib.sha256` / `hashlib.sha512`). -/
inductive HashAlg where
  | sha1
  | sha256
  | sha512
deriving DecidableEq, Repr

/-- The underlying hash of an algorithm choice. -/
def HashAlg.hash : HashAlg → List Nat → List Nat
  | .sha1 => TOTP.sha1
  | .sha256 => TOTP.sha256
  | .sha512 => TOTP.sha512

/-- The HMAC block size of an algorithm choice (`hashlib`'s
`block_size`: 64 bytes for SHA-1/SHA-256, 128 bytes for SHA-512). -/
def HashAlg.blockSize : HashAlg → Nat
  | .sha1 => 64
  | .sha256 => 64
  | .sha512 => 128

/-- The digest length in bytes of an algorithm choice. -/
def HashAlg.digestLen : HashAlg → Nat
  | .sha1 => 20
  | .sha256 => 32
  | .sha512 => 64

/-- RFC 2104 HMAC over the selected hash, as computed by
`hmac.new(key=k, msg=m, digestmod=h_alg).hexdigest()` (line 54): a key
longer than the block is replaced by its hash, the key is zero-padded to
the block size, and the inner/outer pads are `0x36`/`0x5c`. -/
def hmacBytes (alg : HashAlg) (key msg : List Nat) : List Nat :=
  let B := alg.blockSize
  let k0 := if B < key.length then alg.hash key else key
  let kp := k0 ++ List.replicate (B - k0.length) 0
  let ipad := kp.map (fun b => b ^^^ 0x36)
  let opad := kp.map (fun b => b ^^^ 0x5c)
  alg.hash (opad ++ alg.hash (ipad ++ msg))

/-! ## `base64.b32decode(key, casefold=True)` (CPython `Lib/base64.py`)

The secret reaches `b32decode` as a `str`; CPython first ASCII-encodes it
(raising `ValueError` on a non-ASCII character), checks that the length is
a multiple of 8, upper-cases it (`casefold=True`), strips trailing `=`,
folds each 8-character quanta through the reverse alphabet (raising
`binascii.Error('Non-base32 digit found')` on any byte outside it),
appends each quanta's 40-bit accumulator as 5 big-endian bytes, checks
that the number of stripped pad characters is one of `{0, 1, 3, 4, 6}`,
and finally replaces the last 5 bytes by the shifted final accumulator's
leading bytes. -/

/-- `str.upper` on one ASCII byte. -/
def upperByte (b : Nat) : Nat := if 97 ≤ b ∧ b ≤ 122 then b - 32 else b

/-- The reverse base32 alphabet: `A`–`Z` ↦ 0–25, `2`–`7` ↦ 26–31. -/
def b32rev (b : Nat) : Option Nat :=
  if 65 ≤ b ∧ b ≤ 90 then some (b - 65)
  else if 50 ≤ b ∧ b ≤ 55 then some (b - 50 + 26)
  else none

/-- `s.rstrip(b'=')`: drop the trailing run of `=` (byte 61). -/
def rstripPad (l : List Nat) : List Nat :=
  (l.reverse.dropWhile (fun b => b = 61)).reverse

/-- Fold one quanta into its 40-bit accumulator, `none` on a byte outside
the alphabet. -/
def quantaAcc : List Nat → Nat → Option Nat
  | [], acc => some acc
  | b :: rest, acc =>
    match b32rev b with
    | none => none
    | some v => quantaAcc rest (acc * 32 + v)

/-- The quanta loop of `_b32decode`: successive groups of 8 bytes (the
last group possibly short after `=`-stripping), each contributing 5
decoded bytes; also returns the accumulator of the last group processed,
which the caller's padding fix-up reuses. -/
def b32loop : List Nat → Nat → Except String (List Nat × Nat)
  | [], acc => .ok ([], acc)
  | c1 :: c2 :: c3 :: c4 :: c5 :: c6 :: c7 :: c8 :: rest, _ =>
    match quantaAcc [c1, c2, c3, c4, c5, c6, c7, c8] 0 with
    | none => .error "Non-base32 digit found"
    | some acc =>
      match b32loop rest acc with
      | .error e => .error e
      | .ok (bs, a) => .ok (beBytes 5 acc ++ bs, a)
  | short, _ =>
    match quantaAcc short 0 with
    | none => .error "Non-base32 digit found"
    | some acc => .ok (beBytes 5 acc, acc)

/-- `base64.b32decode(input, casefold=True)`.  In the fix-up branch the
accumulator of a short final quanta of `8 - padchars` characters is below
`2 ^ (5 * (8 - padchars))`, so the shifted value fits 5 bytes and
`int.to_bytes(5)` is exactly `beBytes 5`. -/
def b32decode (input : List Char) : Except String (List Nat) :=
  if input.any (fun c => 128 ≤ c.toNat) then
    .error "string argument should contain only ASCII characters"
  else
    let s0 := input.map Char.toNat
    if s0.length % 8 ≠ 0 then .error "Incorrect padding"
    else
      let s1 := s0.map upperByte
      let s := rstripPad s1
      let padchars := s1.length - s.length
      match b32loop s 0 with
      | .error e => .error e
      | .ok (decoded, acc) =>
        if ¬ (padchars = 0 ∨ padchars = 1 ∨ padchars = 3 ∨ padchars = 4 ∨
            padchars = 6) then
          .error "Incorrect padding"
        else if padchars ≠ 0 ∧ decoded ≠ [] then
          let last := beBytes 5 (acc <<< (5 * padchars))
          let leftover := (43 - 5 * padchars) / 8
          .ok (decoded.take (decoded.length - 5) ++ last.take leftover)
        else .ok decoded

/-! ## `key_check` (lines 36-41) -/

/-- `key.replace('-', '').replace(' ', '')`. -/
def cleanSecret (k : String) : List Char :=
  k.data.filter (fun c => decide (c ≠ '-' ∧ c ≠ ' '))

/-- The cleaned secret with `=` padding restored to a multiple of 8
characters (lines 37-40). -/
def cleanPad (k : String) : List Char :=
  let s := cleanSecret k
  let missing := s.length % 8
  if missing ≠ 0 then s ++ List.replicate (8 - missing) '=' else s

/-- `key_check` (lines 36-41): strip separators, restore padding, and
base32-decode case-insensitively. -/
def key_check (k : String) : Except String (List Nat) :=
  b32decode (cleanPad k)

/-! ## `int_to_bytestring` (lines 20-33) -/

/-- `bytearray.rjust(padding, b'\0')`: left-pad with zero bytes up to
`padding` bytes; a no-op on longer strings. -/
def rjustZero (padding : Nat) (l : List Nat) : List Nat :=
  List.replicate (padding - l.length) 0 ++ l

/-- The `while i != 0` loop of lines 27-29 on a non-negative value: the
little-endian byte list `[i & 0xFF, (i >> 8) & 0xFF, ...]`.  Fuelled so
that the kernel can unfold it; each step divides `i` by 256, so fuel `i`
always suffices (`intToBytesLoop_eq_digits`). -/
def intToBytesLoop : Nat → Nat → List Nat
  | 0, _ => []
  | fuel + 1, i =>
    if i = 0 then [] else (i &&& 0xFF) :: intToBytesLoop fuel (i >>> 8)

/-- `int_to_bytestring` (lines 20-33) on a non-negative counter: collect
the bytes of `i` low first, reverse, and right-justify to `padding`
(default 8) with zero bytes. -/
def int_to_bytestring (i : Nat) (padding : Nat := 8) : List Nat :=
  rjustZero padding (intToBytesLoop i i).reverse

/-- Line 48, `int((time.time() - t0) / ti)`, with the clock reading an
explicit argument: Python's `int()` truncates the quotient toward zero,
i.e. `Int.tdiv`. -/
def currentCounter (epoch t0 ti : Int) : Int := (epoch - t0).tdiv ti

/-- Dynamic truncation exactly as lines 56-70: the digest is read as one
big integer, the offset is its low 4 bits (the low 4 bits of the last
digest byte), and the 4-byte window is selected by shifts computed from
the hard-coded digest length `20`. -/
def truncate_code (digest : List Nat) : Nat :=
  let D := beVal digest
  let offset := D &&& (2 ^ (2 * 2) - 1)
  let window := (2 ^ (8 * 4) - 1) <<< ((20 - offset - 4) * 8)
  let res := (D &&& window) >>> ((20 - offset - 4) * 8)
  res &&& 0x7fffffff

/-- Dynamic truncation as the specification words it (RFC 4226 §5.3,
applied generically to a digest of any length): offset `O` from the low 4
bits of the last byte, then digest bytes `O..O+3` read as an unsigned
32-bit big-endian integer, masked with `0x7fffffff`. -/
def truncate_spec (digest : List Nat) : Nat :=
  let offset := digest.getD (digest.length - 1) 0 % 16
  beVal ((digest.drop offset).take 4) &&& 0x7fffffff

/-- One decimal digit character. -/
def digitChar (v : Nat) : Char := Char.ofNat (48 + v)

/-- The decimal digits of a non-negative value, as `str` renders it;
fuelled (each step strips one digit, so `decStr`'s fuel `x + 1` always
suffices). -/
def decChars : Nat → Nat → List Char
  | 0, _ => []
  | fuel + 1, x =>
    if x < 10 then [digitChar x] else decChars fuel (x / 10) ++ [digitChar (x % 10)]

/-- `str(_token)` for the non-negative token value. -/
def decStr (x : Nat) : List Char := decChars (x + 1) x

/-- Lines 78-80: render the token in decimal and left-pad with `'0'`
characters until the length is `n`. -/
def fmtToken (t n : Nat) : String :=
  let s := decStr t
  ⟨List.replicate (n - s.length) '0' ++ s⟩

/-- The dict `get_key` returns: `{"success": True, "result": …}` or
`{"success": False, "message": …}`. -/
inductive TotpResult where
  | success (result : String)
  | failure (message : String)
deriving DecidableEq, Repr

/-- The diagnostic prints guarded by the module-level `__debug` flag
(lines 49, 55, 61, 66, 68, 71, 76), with the printed values carried as
data. -/
inductive DbgMsg where
  | counter (c : Int)
  | digest (h : List Nat)
  | offset (o : Nat)
  | window (m : Nat)
  | res (r : Nat)
  | truncated (i : Nat)
  | token (t : Nat)
deriving DecidableEq, Repr

/-- `get_key` (lines 44-83) with the wall-clock reading `epoch` passed
explicitly and the module-level `__debug` flag as the argument `dbg`.
The first component is `some` outcome, or `none` when the call never
returns: on a negative derived counter the `int_to_bytestring` loop runs
forever (`intToBytesLoopF_neg`; the fuelled model `get_keyF` justifies
this branch).  The second component collects the diagnostic prints — on
the divergent path only `C` has been printed when the loop starts.  The
`try/except` of lines 45 and 82-83 appears as the `.error` branches of
`key_check`, and of the division, becoming `failure` outcomes. -/
def get_key_logged (dbg : Bool) (k : String) (epoch : Int) (t0 : Int := 0)
    (ti : Int := 30) (hAlg : HashAlg := .sha1) (n : Nat := 6) :
    Option TotpResult × List DbgMsg :=
  match key_check k with
  | .error e => (some (.failure e), [])
  | .ok key =>
    if ti = 0 then (some (.failure "float division by zero"), [])
    else
      let c := currentCounter epoch t0 ti
      if c < 0 then (none, if dbg then [.counter c] else [])
      else
        let digest := hmacBytes hAlg key (int_to_bytestring c.toNat 8)
        let D := beVal digest
        let offset := D &&& (2 ^ (2 * 2) - 1)
        let window := (2 ^ (8 * 4) - 1) <<< ((20 - offset - 4) * 8)
        let res := (D &&& window) >>> ((20 - offset - 4) * 8)
        let i := res &&& 0x7fffffff
        let token := i % 10 ^ n
        (some (.success (fmtToken token n)),
          if dbg then
            [.counter c, .digest digest, .offset offset, .window window,
              .res res, .truncated i, .token token]
          else [])

/-- The outcome of `get_key`, dropping the diagnostic prints (which the
`__debug` flag of the source leaves disabled). -/
def get_key (k : String) (epoch : Int) (t0 : Int := 0) (ti : Int := 30)
    (hAlg : HashAlg := .sha1) (n : Nat := 6) : Option TotpResult :=
  (get_key_logged false k epoch t0 ti hAlg n).1

/-- The minimal big-endian byte representation of a non-negative value,
as the specification words it: the base-256 digits, most significant
first (empty for zero). -/
def minBE (c : Nat) : List Nat := (Nat.digits 256 c).reverse

/-- The specification's case-insensitive base32 alphabet together with
the padding character: `A`–`Z` (65–90), `a`–`z` (97–122), `2`–`7`
(50–55), and `=` (61), by ASCII code. -/
def validB32Char (c : Char) : Prop :=
  (65 ≤ c.toNat ∧ c.toNat ≤ 90) ∨ (97 ≤ c.toNat ∧ c.toNat ≤ 122) ∨
    (50 ≤ c.toNat ∧ c.toNat ≤ 55) ∨ c.toNat = 61

instance (c : Char) : Decidable (validB32Char c) := by
  unfold validB32Char; infer_instance

/-- Drop the trailing run of `=` characters. -/
def rstripEqC (s : List Char) : List Char :=
  (s.reverse.dropWhile (fun c => c = '=')).reverse

/-- The number of trailing `=` padding characters. -/
def padCount (s : List Char) : Nat := s.length - (rstripEqC s).length

/-- Structurally misplaced padding, as the specification words it: a `=`
that is not part of the trailing padding run, or a trailing run whose
length is not one of the counts a well-formed base32 encoding can carry
(`0`, `1`, `3`, `4` or `6` pad characters on the final 8-character
group). -/
def misplacedPadding (s : List Char) : Prop :=
  '=' ∈ rstripEqC s ∨
    ¬ (padCount s = 0 ∨ padCount s = 1 ∨ padCount s = 3 ∨ padCount s = 4 ∨
      padCount s = 6)

/-- The RFC 4226 Appendix D key: the ASCII bytes of
`"12345678901234567890"`. -/
def rfc4226Key : List Nat :=
  [49, 50, 51, 52, 53, 54, 55, 56, 57, 48, 49, 50, 51, 52, 53, 54, 55, 56, 57, 48]

/-- The RFC 4226 Appendix D secret as the program takes it: the Base32
encoding of the ASCII string `"12345678901234567890"`. -/
def rfc4226Secret : String := "GEZDGNBVGY3TQOJQGEZDGNBVGY3TQOJQ"

/-! ## Supporting lemmas -/

set_option maxRecDepth 100000
set_option maxHeartbeats 2000000

/-- With enough fuel (`i` itself always is), the byte loop of
`int_to_bytestring` produces exactly the little-endian base-256 digits
of `i`. -/
theorem intToBytesLoop_eq_digits :
    ∀ fuel i : Nat, i ≤ fuel → intToBytesLoop fuel i = Nat.digits 256 i := by
  intro fuel
  induction fuel with
  | zero =>
    intro i h
    have hi : i = 0 := by omega
    subst hi
    simp [intToBytesLoop]
  | succ f ih =>
    intro i h
    by_cases hi : i = 0
    · subst hi; simp [intToBytesLoop]
    · have h256 : i &&& 0xFF = i % 256 := by
        simpa using Nat.and_pow_two_sub_one_eq_mod i 8
      have hshift : i >>> 8 = i / 256 := by
        simpa using Nat.shiftRight_eq_div_pow i 8
      rw [intToBytesLoop, if_neg hi, h256, hshift, ih (i / 256) (by omega),
        Nat.digits_def' (by norm_num : (1 : ℕ) < 256) (Nat.pos_of_ne_zero hi)]

/-- C8: for every non-negative counter, the message fed to the HMAC is
the minimal big-endian representation left-padded with zero bytes to 8
bytes; the zero counter gives exactly 8 zero bytes, and once the minimal
representation exceeds 8 bytes the padding step is a no-op. -/
theorem int_to_bytestring_pads_minimal_be (c : Nat) :
    int_to_bytestring c 8 = List.replicate (8 - (minBE c).length) 0 ++ minBE c ∧
    int_to_bytestring 0 8 = List.replicate 8 0 ∧
    (8 ≤ (minBE c).length → int_to_bytestring c 8 = minBE c) := by
  have h : (intToBytesLoop c c).reverse = minBE c := by
    rw [intToBytesLoop_eq_digits c c le_rfl]; rfl
  refine ⟨?_, by decide, ?_⟩
  · unfold int_to_bytestring rjustZero
    rw [h]
  · intro h8
    unfold int_to_bytestring rjustZero
    rw [h, show 8 - (minBE c).length = 0 by omega]
    rfl

/-- Witness for `int_to_bytestring_pads_minimal_be`: at `c = 2 ^ 64` the
minimal representation has 9 bytes, and the encoding passes it through
unpadded. -/
theorem int_to_bytestring_pads_minimal_be_witness :
    8 ≤ (minBE (2 ^ 64)).length ∧ int_to_bytestring (2 ^ 64) 8 = minBE (2 ^ 64) := by
  have h1 : (Nat.digits 256 (2 ^ 64)).length = Nat.log 256 (2 ^ 64) + 1 :=
    Nat.digits_len 256 (2 ^ 64) (by norm_num) (by norm_num)
  have h2 : Nat.log 256 (2 ^ 64) = 8 := by
    rw [show (2 : ℕ) ^ 64 = 256 ^ 8 by norm_num]
    exact Nat.log_pow (by norm_num) 8
  have hlen : 8 ≤ (minBE (2 ^ 64)).length := by
    unfold minBE
    rw [List.length_reverse, h1, h2]
    omega
  exact ⟨hlen, (int_to_bytestring_pads_minimal_be (2 ^ 64)).2.2 hlen⟩

/-! ## C3: the RFC 4226 Appendix D known answers -/

/-- C3: with the Appendix D secret, SHA-1 and 6 digits, the derived
counters `0`, `1` and `9` (clock readings 0, 30 and 270 with `t0 = 0`,
`step = 30`) produce the RFC 4226 known-answer tokens. -/
theorem get_key_rfc4226_appendix_d :
    (currentCounter 0 0 30 = 0 ∧
      get_key rfc4226Secret 0 0 30 .sha1 6 = some (.success "755224")) ∧
    (currentCounter 30 0 30 = 1 ∧
      get_key rfc4226Secret 30 0 30 .sha1 6 = some (.success "287082")) ∧
    (currentCounter 270 0 30 = 9 ∧
      get_key rfc4226Secret 270 0 30 .sha1 6 = some (.success "520489")) :=
  ⟨⟨by decide, by decide⟩, ⟨by decide, by decide⟩, ⟨by decide, by decide⟩⟩

/-! ## C1: dynamic truncation and the hard-coded digest length -/

/-- C1: the dynamic truncation of lines 57-70 takes the offset from the
low 4 bits of the last digest byte and reads 4 bytes at byte offset `O`
— but only for the 20-byte SHA-1 digest.  The shift distances hard-code
the digest length `20`, so on the 32-byte SHA-256 digest the code reads
the window at byte `12 + O` instead of `O` (and likewise at byte
`44 + O` on the 64-byte SHA-512 digest): the generically-worded
truncation of the specification and the code disagree on every
non-SHA-1 digest, here exhibited on the Appendix D key at counter 0,
where the code's SHA-256 token `"594268"` differs from the `"875740"`
that offset-`O` truncation yields. -/
theorem truncate_hardcoded_twenty :
    (truncate_code (hmacBytes .sha1 rfc4226Key (int_to_bytestring 0 8)) =
      truncate_spec (hmacBytes .sha1 rfc4226Key (int_to_bytestring 0 8))) ∧
    truncate_code (hmacBytes .sha256 rfc4226Key (int_to_bytestring 0 8)) =
      1497594268 ∧
    truncate_spec (hmacBytes .sha256 rfc4226Key (int_to_bytestring 0 8)) =
      2074875740 ∧
    get_key rfc4226Secret 0 0 30 .sha256 6 = some (.success "594268") :=
  ⟨by decide, by decide, by decide, by decide⟩

/-! ## C10: determinism and independence from the debug flag -/

/-- C10: the outcome of `get_key` — tag, token and message alike — does
not depend on the module-level `__debug` flag, which only controls the
diagnostic prints (none are emitted when it is off); with the clock
reading fixed as an argument, the outcome is a function of the arguments
alone, so two calls with identical arguments and clock reading return
identical outcomes. -/
theorem get_key_ignores_debug (dbg : Bool) (k : String) (epoch t0 ti : Int)
    (hAlg : HashAlg) (n : Nat) :
    (get_key_logged dbg k epoch t0 ti hAlg n).1 = get_key k epoch t0 ti hAlg n ∧
    (get_key_logged false k epoch t0 ti hAlg n).2 = [] := by
  unfold get_key get_key_logged
  cases key_check k with
  | error e => exact ⟨rfl, rfl⟩
  | ok key =>
    by_cases hti : ti = 0
    · simp [hti]
    · by_cases hc : currentCounter epoch t0 ti < 0 <;> simp [hti, hc]

/-! ## C4: the empty key -/

/-- The digit renderer does not depend on the fuel once the fuel exceeds
the value. -/
theorem decChars_fuel :
    ∀ f g x : Nat, x < f → x < g → decChars f x = decChars g x := by
  intro f
  induction f with
  | zero => intro g x hf hg; omega
  | succ f ih =>
    intro g x hf hg
    cases g with
    | zero => omega
    | succ g =>
      by_cases hx : x < 10
      · simp [decChars, hx]
      · simp only [decChars, if_neg hx]
        rw [ih g (x / 10) (by omega) (by omega)]

/-- Rendering a one-digit value. -/
theorem decStr_small {x : Nat} (hx : x < 10) : decStr x = [digitChar x] := by
  unfold decStr
  simp [decChars, hx]

/-- Peeling the last digit of a multi-digit value. -/
theorem decStr_append (x : Nat) (hx : 10 ≤ x) :
    decStr x = decStr (x / 10) ++ [digitChar (x % 10)] := by
  have h1 : decStr x = decChars x (x / 10) ++ [digitChar (x % 10)] := by
    unfold decStr
    simp only [decChars, if_neg (by omega : ¬ x < 10)]
  rw [h1, decChars_fuel x (x / 10 + 1) (x / 10) (by omega) (by omega)]
  rfl

/-- A value below `10 ^ k` renders in at most `k` digits (`k ≥ 1`). -/
theorem decStr_length_le :
    ∀ k x : Nat, x < 10 ^ k → 1 ≤ k → (decStr x).length ≤ k := by
  intro k
  induction k with
  | zero => intro x hx hk; omega
  | succ k ih =>
    intro x hx hk
    by_cases h10 : x < 10
    · rw [decStr_small h10]
      simp
    · push_neg at h10
      rw [decStr_append x h10, List.length_append]
      have hk1 : 1 ≤ k := by
        rcases Nat.eq_zero_or_pos k with h0 | h
        · subst h0; norm_num at hx; omega
        · exact h
      have hxk : x / 10 < 10 ^ k := by
        rw [Nat.div_lt_iff_lt_mul (by norm_num)]
        calc x < 10 ^ (k + 1) := hx
        _ = 10 ^ k * 10 := by ring
      have := ih (x / 10) hxk hk1
      simp only [List.length_singleton]
      omega

/-- Each rendered digit character is an ASCII digit. -/
theorem digitChar_isDigit (v : Nat) (h : v < 10) : (digitChar v).isDigit = true := by
  interval_cases v <;> decide

/-- Every character `str` renders for a non-negative value is an ASCII
digit. -/
theorem decStr_all_digits :
    ∀ x : Nat, ∀ c ∈ decStr x, c.isDigit = true := by
  intro x
  induction x using Nat.strong_induction_on with
  | _ x ih =>
    intro c hc
    by_cases h10 : x < 10
    · rw [decStr_small h10] at hc
      simp only [List.mem_singleton] at hc
      subst hc
      exact digitChar_isDigit x h10
    · push_neg at h10
      rw [decStr_append x h10] at hc
      rcases List.mem_append.mp hc with h | h
      · exact ih (x / 10) (by omega) c h
      · simp only [List.mem_singleton] at h
        subst h
        exact digitChar_isDigit _ (Nat.mod_lt _ (by norm_num))

/-- The formatted token of a value below `10 ^ n` has exactly `n`
characters, all ASCII digits. -/
theorem fmtToken_shape (t n : Nat) (ht : t < 10 ^ n) (hn : 1 ≤ n) :
    (fmtToken t n).length = n ∧ ∀ c ∈ (fmtToken t n).data, c.isDigit = true := by
  have hlen := decStr_length_le n t ht hn
  unfold fmtToken
  constructor
  · show (List.replicate (n - (decStr t).length) '0' ++ decStr t).length = n
    rw [List.length_append, List.length_replicate]
    omega
  · intro c hc
    rcases List.mem_append.mp hc with h | h
    · rw [List.eq_of_mem_replicate h]; decide
    · exact decStr_all_digits t c h

/-- C7: whenever `get_key` returns a success outcome for a digit count
`n ≥ 1`, the token string has length exactly `n` and every character is
an ASCII digit `'0'`–`'9'` — leading zeros are preserved by the explicit
left-padding of lines 78-80. -/
theorem get_key_token_shape (k : String) (epoch t0 ti : Int) (hAlg : HashAlg)
    (n : Nat) (tok : String) (hn : 1 ≤ n)
    (h : get_key k epoch t0 ti hAlg n = some (.success tok)) :
    tok.length = n ∧ ∀ c ∈ tok.data, c.isDigit = true := by
  unfold get_key get_key_logged at h
  cases hk : key_check k with
  | error e => rw [hk] at h; simp at h
  | ok key =>
    rw [hk] at h
    dsimp only at h
    by_cases hti : ti = 0
    · rw [if_pos hti] at h; simp at h
    · rw [if_neg hti] at h
      by_cases hc : currentCounter epoch t0 ti < 0
      · rw [if_pos hc] at h; simp at h
      · rw [if_neg hc] at h
        simp only [Option.some.injEq, TotpResult.success.injEq] at h
        rw [← h]
        exact fmtToken_shape _ n (Nat.mod_lt _ (by positivity)) hn

/-- Witness for `get_key_token_shape`: derived counter 16 with the key
`"AAAAAAAA"` and 8 digits gives the zero-padded token `"01304831"` —
8 characters, all digits, leading zero preserved. -/
theorem get_key_token_shape_witness :
    ("01304831" : String).length = 8 ∧
      ∀ c ∈ ("01304831" : String).data, c.isDigit = true :=
  get_key_token_shape "AAAAAAAA" 480 0 30 .sha1 8 "01304831" (by decide) (by decide)

/-! ## C6: invalid secrets fail -/

/-- Upper-casing maps a byte to `=` (61) only from 61 itself. -/
theorem upperByte_eq_61 {b : Nat} : upperByte b = 61 ↔ b = 61 := by
  unfold upperByte
  split_ifs with h <;> omega

/-- A byte outside the specification's alphabet (and not `=`) stays
outside the decoder's reverse alphabet after upper-casing. -/
theorem b32rev_upper_none {b : Nat}
    (h : ¬ ((65 ≤ b ∧ b ≤ 90) ∨ (97 ≤ b ∧ b ≤ 122) ∨ (50 ≤ b ∧ b ≤ 55) ∨
      b = 61)) :
    b32rev (upperByte b) = none := by
  unfold b32rev upperByte
  split_ifs <;> first | rfl | (exfalso; omega)

/-- Folding a quanta that contains a byte outside the alphabet fails. -/
theorem quantaAcc_none :
    ∀ (l : List Nat) (acc : Nat), (∃ b ∈ l, b32rev b = none) →
      quantaAcc l acc = none := by
  intro l
  induction l with
  | nil => intro acc h; simp at h
  | cons x xs ih =>
    intro acc h
    rcases h with ⟨b, hb, hnone⟩
    rcases List.mem_cons.mp hb with rfl | hmem
    · simp [quantaAcc, hnone]
    · cases hx : b32rev x with
      | none => simp [quantaAcc, hx]
      | some v =>
        simp only [quantaAcc, hx]
        exact ih _ ⟨b, hmem, hnone⟩

/-- The quanta loop fails as soon as any byte of its input lies outside
the reverse alphabet — the model of `binascii.Error('Non-base32 digit
found')`. -/
theorem b32loop_error (l : List Nat) (acc : Nat)
    (h : ∃ b ∈ l, b32rev b = none) :
    b32loop l acc = .error "Non-base32 digit found" := by
  induction l, acc using b32loop.induct with
  | case1 acc => simp at h
  | case2 c1 c2 c3 c4 c5 c6 c7 c8 rest x hq =>
    rw [b32loop.eq_2, hq]
  | case3 c1 c2 c3 c4 c5 c6 c7 c8 rest x v hq e herr ih =>
    rcases h with ⟨b, hb, hnone⟩
    have hsplit : b ∈ [c1, c2, c3, c4, c5, c6, c7, c8] ∨ b ∈ rest := by
      simp only [List.mem_cons] at hb ⊢
      tauto
    rcases hsplit with h8 | hrest
    · rw [quantaAcc_none _ 0 ⟨b, h8, hnone⟩] at hq
      cases hq
    · simp only [b32loop.eq_2, hq, ih ⟨b, hrest, hnone⟩]
  | case4 c1 c2 c3 c4 c5 c6 c7 c8 rest x v hq bs a hok ih =>
    rcases h with ⟨b, hb, hnone⟩
    have hsplit : b ∈ [c1, c2, c3, c4, c5, c6, c7, c8] ∨ b ∈ rest := by
      simp only [List.mem_cons] at hb ⊢
      tauto
    rcases hsplit with h8 | hrest
    · rw [quantaAcc_none _ 0 ⟨b, h8, hnone⟩] at hq
      cases hq
    · rw [ih ⟨b, hrest, hnone⟩] at hok
      cases hok
  | case5 short x hne hn8 hq =>
    rw [b32loop.eq_3 short x hne hn8, hq]
  | case6 short x hne hn8 v hq =>
    rcases h with ⟨b, hb, hnone⟩
    rw [quantaAcc_none _ 0 ⟨b, hb, hnone⟩] at hq
    cases hq

/-- An element that does not satisfy the stripping predicate survives
`dropWhile`. -/
theorem mem_dropWhile_of_mem {α : Type} (p : α → Bool) :
    ∀ (l : List α) (b : α), b ∈ l → p b = false → b ∈ l.dropWhile p := by
  intro l
  induction l with
  | nil => intro b h hp; simp at h
  | cons x xs ih =>
    intro b hb hpb
    rw [List.dropWhile_cons]
    by_cases hx : p x = true
    · rw [if_pos hx]
      rcases List.mem_cons.mp hb with rfl | hmem
      · rw [hpb] at hx; cases hx
      · exact ih b hmem hpb
    · rw [if_neg hx]
      exact hb

/-- A byte other than `=` (61) survives the `=`-stripping. -/
theorem mem_rstripPad {l : List Nat} {b : Nat} (hb : b ∈ l) (hne : b ≠ 61) :
    b ∈ rstripPad l := by
  unfold rstripPad
  rw [List.mem_reverse]
  exact mem_dropWhile_of_mem _ l.reverse b (List.mem_reverse.mpr hb)
    (by simp [hne])

/-- `dropWhile` commutes with a map that preserves being-`=`. -/
theorem dropWhile_map_eq (f : Char → Nat)
    (hf : ∀ c, decide (f c = 61) = decide (c = '=')) :
    ∀ l : List Char, (l.map f).dropWhile (fun b => b = 61) =
      (l.dropWhile (fun c => c = '=')).map f := by
  intro l
  induction l with
  | nil => rfl
  | cons x xs ih =>
    simp only [List.map_cons, List.dropWhile_cons, hf x]
    by_cases hx : x = '='
    · simp [hx, ih]
    · simp [hx]

/-- `=`-stripping commutes with a map that preserves being-`=`. -/
theorem rstripPad_map (f : Char → Nat)
    (hf : ∀ c, decide (f c = 61) = decide (c = '=')) (s : List Char) :
    rstripPad (s.map f) = (rstripEqC s).map f := by
  unfold rstripPad rstripEqC
  rw [← List.map_reverse, dropWhile_map_eq f hf, List.map_reverse]

/-- The composite of ASCII encoding and upper-casing preserves
being-`=`. -/
theorem upper_toNat_61 (c : Char) :
    decide (upperByte c.toNat = 61) = decide (c = '=') := by
  by_cases h : c = '='
  · subst h
    rfl
  · have h2 : c.toNat ≠ 61 := fun hc => h (Char.ext (UInt32.ext hc))
    have h3 : upperByte c.toNat ≠ 61 := fun hu => h2 (upperByte_eq_61.mp hu)
    simp [h, h3]

/-- Any cleaned-and-padded secret that contains a character outside the
case-insensitive alphabet, or whose `=` padding is structurally
misplaced, makes `b32decode` fail. -/
theorem b32decode_error_of_bad (s : List Char) (hlen : s.length % 8 = 0)
    (h : (∃ c ∈ s, ¬ validB32Char c) ∨ misplacedPadding s) :
    ∃ m, b32decode s = .error m := by
  by_cases hasc : s.any (fun c => 128 ≤ c.toNat)
  · refine ⟨"string argument should contain only ASCII characters", ?_⟩
    unfold b32decode
    rw [if_pos hasc]
  · have hmap : (s.map Char.toNat).map upperByte =
        s.map (fun c => upperByte c.toNat) := by
      rw [List.map_map]
      rfl
    have hcomm : rstripPad ((s.map Char.toNat).map upperByte) =
        (rstripEqC s).map (fun c => upperByte c.toNat) := by
      rw [hmap]
      exact rstripPad_map _ (fun c => upper_toNat_61 c) s
    have hlen2 : ¬ ((s.map Char.toNat).length % 8 ≠ 0) := by
      simpa using hlen
    have hpadeq : ((s.map Char.toNat).map upperByte).length -
        (rstripPad ((s.map Char.toNat).map upperByte)).length = padCount s := by
      rw [hcomm, List.length_map, List.length_map, List.length_map]
      rfl
    rcases h with ⟨c, hcs, hval⟩ | hmis
    · -- a character outside the alphabet: the quanta loop fails on it
      unfold validB32Char at hval
      have hb : b32rev (upperByte c.toNat) = none := b32rev_upper_none hval
      have hne : upperByte c.toNat ≠ 61 := by
        intro he
        exact hval (Or.inr (Or.inr (Or.inr (upperByte_eq_61.mp he))))
      have hmem : upperByte c.toNat ∈
          rstripPad ((s.map Char.toNat).map upperByte) := by
        rw [hmap]
        exact mem_rstripPad
          (List.mem_map_of_mem (fun c => upperByte c.toNat) hcs) hne
      have herr : b32loop (rstripPad ((s.map Char.toNat).map upperByte)) 0 =
          .error "Non-base32 digit found" :=
        b32loop_error _ 0 ⟨_, hmem, hb⟩
      refine ⟨"Non-base32 digit found", ?_⟩
      unfold b32decode
      rw [if_neg hasc, if_neg hlen2]
      dsimp only
      rw [herr]
    · rcases hmis with heq | hcount
      · -- an interior `=`: it survives stripping, and the loop fails on it
        have hmem : (61 : Nat) ∈
            rstripPad ((s.map Char.toNat).map upperByte) := by
          rw [hcomm]
          exact List.mem_map_of_mem _ heq
        have herr : b32loop (rstripPad ((s.map Char.toNat).map upperByte)) 0 =
            .error "Non-base32 digit found" :=
          b32loop_error _ 0 ⟨61, hmem, rfl⟩
        refine ⟨"Non-base32 digit found", ?_⟩
        unfold b32decode
        rw [if_neg hasc, if_neg hlen2]
        dsimp only
        rw [herr]
      · -- a structurally impossible number of pad characters
        cases hbl : b32loop (rstripPad ((s.map Char.toNat).map upperByte)) 0 with
        | error e =>
          refine ⟨e, ?_⟩
          unfold b32decode
          rw [if_neg hasc, if_neg hlen2]
          dsimp only
          rw [hbl]
        | ok p =>
          obtain ⟨decoded, acc⟩ := p
          refine ⟨"Incorrect padding", ?_⟩
          unfold b32decode
          rw [if_neg hasc, if_neg hlen2]
          dsimp only
          rw [hbl]
          dsimp only
          rw [hpadeq, if_pos hcount]

/-- The cleaned secret is always padded to a multiple of 8 characters. -/
theorem cleanPad_len (k : String) : (cleanPad k).length % 8 = 0 := by
  unfold cleanPad
  dsimp only
  split_ifs with h
  · rw [List.length_append, List.length_replicate]
    omega
  · omega

/-- C6: whenever the cleaned and padded secret contains a character
outside the case-insensitive base32 alphabet, or its padding is
structurally misplaced (an interior `=`, or an impossible number of
trailing `=`), `get_key` returns a failure outcome — never a success
carrying a silently wrong token. -/
theorem get_key_invalid_secret_fails (k : String) (epoch t0 ti : Int)
    (hAlg : HashAlg) (n : Nat)
    (h : (∃ c ∈ cleanPad k, ¬ validB32Char c) ∨ misplacedPadding (cleanPad k)) :
    ∃ m, get_key k epoch t0 ti hAlg n = some (.failure m) := by
  obtain ⟨m, hm⟩ := b32decode_error_of_bad (cleanPad k) (cleanPad_len k) h
  refine ⟨m, ?_⟩
  unfold get_key get_key_logged key_check
  rw [hm]

/-- Witness for `get_key_invalid_secret_fails`: the secret `"!"` — its
cleaned, padded form `"!======="` contains `'!'`, which is outside the
alphabet — yields a failure outcome. -/
theorem get_key_invalid_secret_fails_witness :
    ∃ m, get_key "!" 0 0 30 .sha1 6 = some (.failure m) :=
  get_key_invalid_secret_fails "!" 0 0 30 .sha1 6 (Or.inl (by decide))

end TOTP
